import Mathlib

/-!
Shallow embedding of the `beep-evdev` crate: PC-speaker notes and melodies
played by writing evdev sound events and sleeping in between.

Durations are modelled in nanoseconds (`Duration::from_millis` multiplies by
10^6).  A play operation is modelled as a state transformer over `St`, which
records the number of device-write attempts so far (`idx`) and the trace of
observable actions (device writes and blocking waits).  I/O failure of the
device is modelled by an oracle `Dev : Nat → Option Err` telling whether the
n-th write attempt fails and with which error; the always-succeeding device
is `devOk`.  A failing write is still recorded in the trace (it is the last
action of the run).  `Device::open` in the monolithic `lib.rs` free function
`beep` is modelled by a second oracle indexed by the current write counter,
which along any run equals the number of open attempts made so far.
-/

/-- Rust `std::time::Duration`, in nanoseconds. -/
abbrev Duration := Nat

/-- `Duration::from_millis`. -/
def Duration.fromMillis (ms : Nat) : Duration := ms * 1000000

/-- evdev `EventType::SOUND` (`EV_SND = 0x12`). -/
def EV_SOUND : Nat := 18

/-- evdev `SoundCode::SND_TONE` / `SoundType::SND_TONE` (`= 0x02`). -/
def SND_TONE : Nat := 2

/-- evdev `InputEvent`: event type, code and 32-bit signed payload. -/
structure InputEvent where
  etype : Nat
  code : Nat
  value : Int
deriving DecidableEq, Repr

/-- The single event both `beep` implementations write:
`InputEvent::new(EventType::SOUND, SoundCode::SND_TONE, i32::from(hertz))`
(`u16 → i32` is lossless, so the payload is the frequency itself). -/
def toneEvent (hertz : Nat) : InputEvent :=
  ⟨EV_SOUND, SND_TONE, Int.ofNat hertz⟩

/-- Observable actions of a play operation: a device write
(`Device::send_events` with one event) or a blocking wait (`thread::sleep`). -/
inductive Act where
  | write (e : InputEvent)
  | wait (d : Duration)
deriving DecidableEq, Repr

/-- Opaque I/O error value (`std::io::Error`). -/
abbrev Err := Nat

/-- Device fault oracle: whether the n-th write attempt fails. -/
abbrev Dev := Nat → Option Err

/-- A device whose writes always succeed. -/
def devOk : Dev := fun _ => none

/-- Open fault oracle for the `lib.rs` free `beep`, indexed by the write
counter (along any run of `lib.rs` code, the number of open attempts made so
far always equals the number of write attempts made so far). -/
abbrev OpenOrc := Nat → Option Err

/-- Opens always succeed. -/
def openOk : OpenOrc := fun _ => none

/-- State threaded through a play operation: number of device-write attempts
so far, and the trace of actions performed. -/
structure St where
  idx : Nat
  trace : List Act
deriving DecidableEq, Repr

/-- The initial state: nothing written, empty trace. -/
def st0 : St := ⟨0, []⟩

/-- Sequencing with early return — Rust's `?` operator: on `Ok` continue
with the new state, on `Err` stop, keeping the state reached so far. -/
def andThen (p : St × Option Err) (k : St → St × Option Err) : St × Option Err :=
  match p with
  | (s, none) => k s
  | (s, some e) => (s, some e)

/-- `Device::send_events(&[event])`: one write attempt.  The attempt is
recorded in the trace; the oracle decides whether it fails. -/
def sendEvent (dev : Dev) (e : InputEvent) (s : St) : St × Option Err :=
  ({ idx := s.idx + 1, trace := s.trace ++ [Act.write e] }, dev s.idx)

/-- `thread::sleep(d)`: a blocking wait, recorded in the trace. -/
def sleep (d : Duration) (s : St) : St :=
  { s with trace := s.trace ++ [Act.wait d] }

/-- `Note` (note.rs / lib.rs): frequency in Hertz (u16), sustain length,
repeat count (u16) and inter-repeat delay. -/
structure Note where
  frequency : Nat
  length : Duration
  repeats : Nat
  delay : Duration
deriving DecidableEq, Repr

/-- `DEFAULT_DELAY` (lib.rs): 100 ms. -/
def DEFAULT_DELAY : Duration := Duration.fromMillis 100

/-- `DEFAULT_FREQ` (lib.rs): 440 Hz. -/
def DEFAULT_FREQ : Nat := 440

/-- `DEFAULT_LEN` (lib.rs): 200 ms. -/
def DEFAULT_LEN : Duration := Duration.fromMillis 200

/-- `DEFAULT_REPEATS` (lib.rs): 1. -/
def DEFAULT_REPEATS : Nat := 1

/-- `Note::new`. -/
def Note.new (frequency : Nat) (length : Duration) (repeats : Nat) (delay : Duration) : Note :=
  ⟨frequency, length, repeats, delay⟩

/-- `Note::default()`. -/
def Note.default : Note :=
  Note.new DEFAULT_FREQ DEFAULT_LEN DEFAULT_REPEATS DEFAULT_DELAY

/-- `From<(u16, Duration)> for Note`. -/
def Note.from_pair_dur (frequency : Nat) (length : Duration) : Note :=
  Note.new frequency length DEFAULT_REPEATS DEFAULT_DELAY

/-- `From<(u16, u64)> for Note`: length given in milliseconds. -/
def Note.from_pair_ms (frequency : Nat) (length : Nat) : Note :=
  Note.from_pair_dur frequency (Duration.fromMillis length)

/-- `Melody` (melody.rs): a boxed slice of notes. -/
structure Melody where
  notes : List Note
deriving DecidableEq, Repr

/-- `Melody::new`. -/
def Melody.new (notes : List Note) : Melody := ⟨notes⟩

/-- `AsRef<[Note]> for Melody`. -/
def Melody.as_ref (m : Melody) : List Note := m.notes

/-- `Melody::default()`: one default note. -/
def Melody.default : Melody := Melody.new [Note.default]

/-- `From<Vec<Note>> for Melody`. -/
def Melody.from_vec (notes : List Note) : Melody := Melody.new notes

/-- `From<&[Note]> for Melody`. -/
def Melody.from_slice (notes : List Note) : Melody := Melody.new notes

/-- `impl Beep for Device`, `fn beep` (beep.rs lines 40-46). -/
def Device.beep (dev : Dev) (hertz : Nat) (s : St) : St × Option Err :=
  sendEvent dev (toneEvent hertz) s

/-- The `for _ in 1..note.repeats()` loop of `Device::note` (beep.rs lines
70-75), iterated `repeats - 1` times: sleep `delay`, beep `frequency`,
sleep `length`, beep `0`. -/
def Device.noteLoop (dev : Dev) (n : Note) : Nat → St → St × Option Err
  | 0, s => (s, none)
  | k + 1, s =>
    andThen (Device.beep dev n.frequency (sleep n.delay s)) fun s1 =>
    andThen (Device.beep dev 0 (sleep n.length s1)) fun s2 =>
    Device.noteLoop dev n k s2

/-- `impl Beep for Device`, `fn note` (beep.rs lines 63-78). -/
def Device.note (dev : Dev) (n : Note) (s : St) : St × Option Err :=
  andThen
    (if n.repeats > 0 then
      andThen (Device.beep dev n.frequency s) fun s1 =>
      Device.beep dev 0 (sleep n.length s1)
    else (s, none))
    fun s2 => Device.noteLoop dev n (n.repeats - 1) s2

/-- `impl Beep for Device`, `fn play` (beep.rs lines 134-143). -/
def Device.play (dev : Dev) : List Note → St → St × Option Err
  | [], s => (s, none)
  | n :: rest, s => andThen (Device.note dev n s) fun s1 => Device.play dev rest s1

/-- `Pcspkr::beep` (pcspkr.rs lines 32-38). -/
def Pcspkr.beep (dev : Dev) (hertz : Nat) (s : St) : St × Option Err :=
  sendEvent dev (toneEvent hertz) s

/-- The `for _ in 1..note.repeats()` loop of `Pcspkr::note` (pcspkr.rs
lines 58-63). -/
def Pcspkr.noteLoop (dev : Dev) (n : Note) : Nat → St → St × Option Err
  | 0, s => (s, none)
  | k + 1, s =>
    andThen (Pcspkr.beep dev n.frequency (sleep n.delay s)) fun s1 =>
    andThen (Pcspkr.beep dev 0 (sleep n.length s1)) fun s2 =>
    Pcspkr.noteLoop dev n k s2

/-- `Pcspkr::note` (pcspkr.rs lines 51-66). -/
def Pcspkr.note (dev : Dev) (n : Note) (s : St) : St × Option Err :=
  andThen
    (if n.repeats > 0 then
      andThen (Pcspkr.beep dev n.frequency s) fun s1 =>
      Pcspkr.beep dev 0 (sleep n.length s1)
    else (s, none))
    fun s2 => Pcspkr.noteLoop dev n (n.repeats - 1) s2

/-- The note iteration of `Pcspkr::play`. -/
def Pcspkr.playLoop (dev : Dev) : List Note → St → St × Option Err
  | [], s => (s, none)
  | n :: rest, s => andThen (Pcspkr.note dev n s) fun s1 => Pcspkr.playLoop dev rest s1

/-- `Pcspkr::play` (pcspkr.rs lines 117-123): iterates `melody.as_ref()`. -/
def Pcspkr.play (dev : Dev) (m : Melody) (s : St) : St × Option Err :=
  Pcspkr.playLoop dev m.as_ref s

/-- The monolithic lib.rs `Melody` newtype over `Vec<Note>`. -/
structure MelodyLib where
  notes : List Note
deriving DecidableEq, Repr

/-- The free function `beep` (lib.rs lines 177-183):
`Device::open(FILE)?.send_events(&[...])` — each call first attempts to
open the device (oracle `oOrc`, indexed by the write counter), then writes
one tone event. -/
def libBeep (oOrc : OpenOrc) (dev : Dev) (hertz : Nat) (s : St) : St × Option Err :=
  andThen (s, oOrc s.idx) fun s1 => sendEvent dev (toneEvent hertz) s1

/-- The `for _ in 1..note.repeats` loop inlined in `Melody::play`
(lib.rs lines 82-87). -/
def MelodyLib.noteLoop (oOrc : OpenOrc) (dev : Dev) (n : Note) : Nat → St → St × Option Err
  | 0, s => (s, none)
  | k + 1, s =>
    andThen (libBeep oOrc dev n.frequency (sleep n.delay s)) fun s1 =>
    andThen (libBeep oOrc dev 0 (sleep n.length s1)) fun s2 =>
    MelodyLib.noteLoop oOrc dev n k s2

/-- The per-note body inlined in `Melody::play` (lib.rs lines 76-87). -/
def MelodyLib.noteBody (oOrc : OpenOrc) (dev : Dev) (n : Note) (s : St) : St × Option Err :=
  andThen
    (if n.repeats > 0 then
      andThen (libBeep oOrc dev n.frequency s) fun s1 =>
      libBeep oOrc dev 0 (sleep n.length s1)
    else (s, none))
    fun s2 => MelodyLib.noteLoop oOrc dev n (n.repeats - 1) s2

/-- The note iteration of `Melody::play` (lib.rs lines 75-88). -/
def MelodyLib.playLoop (oOrc : OpenOrc) (dev : Dev) : List Note → St → St × Option Err
  | [], s => (s, none)
  | n :: rest, s =>
    andThen (MelodyLib.noteBody oOrc dev n s) fun s1 => MelodyLib.playLoop oOrc dev rest s1

/-- `Melody::play` (lib.rs lines 74-91). -/
def MelodyLib.play (oOrc : OpenOrc) (dev : Dev) (m : MelodyLib) (s : St) : St × Option Err :=
  MelodyLib.playLoop oOrc dev m.notes s

/-- One sound cycle of a note: tone on, wait `length`, tone off. -/
def cycleT (n : Note) : List Act :=
  [Act.write (toneEvent n.frequency), Act.wait n.length, Act.write (toneEvent 0)]

/-- One iteration of the repeat loop: a delay wait followed by a cycle. -/
def loopBodyT (n : Note) : List Act :=
  Act.wait n.delay :: cycleT n

/-- The action trace a successful playback of a note produces: nothing when
`repeats = 0`, otherwise one cycle followed by `repeats - 1` further cycles,
each preceded by a delay wait. -/
def noteTrace (n : Note) : List Act :=
  match n.repeats with
  | 0 => []
  | k + 1 => cycleT n ++ List.flatten (List.replicate k (loopBodyT n))

/-- The action trace a successful playback of a melody produces: the notes'
traces concatenated in melody order. -/
def melodyTrace (m : List Note) : List Act :=
  List.flatten (m.map noteTrace)

/-- The device writes contained in a trace, in order. -/
def writesOf (t : List Act) : List InputEvent :=
  t.filterMap fun a =>
    match a with
    | Act.write e => some e
    | Act.wait _ => none

/-- The payload of the last device write of a trace, if any. -/
def lastWrite (t : List Act) : Option InputEvent :=
  (writesOf t).getLast?

/-- Total number of repeats in a melody. -/
def sumRepeats (m : List Note) : Nat :=
  (m.map Note.repeats).sum

/-! ### Basic lemmas about the sequencing combinator and elementary steps -/

theorem andThen_assoc (p : St × Option Err) (k1 : St → St × Option Err)
    (k2 : St → St × Option Err) :
    andThen (andThen p k1) k2 = andThen p fun s => andThen (k1 s) k2 := by
  rcases p with ⟨s, o⟩
  cases o <;> rfl

theorem sleep_idx (d : Duration) (s : St) : (sleep d s).idx = s.idx := rfl

theorem sleep_trace (d : Duration) (s : St) :
    (sleep d s).trace = s.trace ++ [Act.wait d] := rfl

/-! ### Runs on an always-succeeding device -/

theorem devOk_noteLoop (n : Note) : ∀ (k : Nat) (s : St),
    Device.noteLoop devOk n k s
      = ({ idx := s.idx + 2 * k,
           trace := s.trace ++ List.flatten (List.replicate k (loopBodyT n)) }, none) := by
  intro k
  induction k with
  | zero => intro s; simp [Device.noteLoop]
  | succ k ih =>
    intro s
    simp only [Device.noteLoop, Device.beep, sendEvent, sleep, andThen, devOk, ih]
    simp only [St.mk.injEq, Prod.mk.injEq, and_true]
    constructor
    · omega
    · simp [List.replicate_succ, loopBodyT, cycleT, List.append_assoc]

theorem devOk_note (n : Note) (s : St) :
    Device.note devOk n s
      = ({ idx := s.idx + 2 * n.repeats, trace := s.trace ++ noteTrace n }, none) := by
  rcases hr : n.repeats with _ | k
  · simp [Device.note, hr, noteTrace, Device.noteLoop, andThen]
  · simp only [Device.note, hr, Nat.succ_sub_one, if_pos (Nat.succ_pos k),
      Device.beep, sendEvent, sleep, andThen, devOk, devOk_noteLoop]
    simp only [St.mk.injEq, Prod.mk.injEq, and_true]
    constructor
    · omega
    · simp [noteTrace, hr, cycleT, List.append_assoc]

theorem devOk_play : ∀ (m : List Note) (s : St),
    Device.play devOk m s
      = ({ idx := s.idx + 2 * sumRepeats m, trace := s.trace ++ melodyTrace m }, none) := by
  intro m
  induction m with
  | nil => intro s; simp [Device.play, sumRepeats, melodyTrace]
  | cons n rest ih =>
    intro s
    simp only [Device.play, devOk_note, andThen, ih]
    simp only [St.mk.injEq, Prod.mk.injEq, and_true]
    constructor
    · simp [sumRepeats]; omega
    · simp [melodyTrace, List.append_assoc]

/-! ### Success characterization: a run that returns `Ok` on any device
produced exactly the nominal trace -/

theorem noteLoop_succ (dev : Dev) (n : Note) : ∀ (k : Nat) (s : St),
    (Device.noteLoop dev n k s).2 = none →
    Device.noteLoop dev n k s
      = ({ idx := s.idx + 2 * k,
           trace := s.trace ++ List.flatten (List.replicate k (loopBodyT n)) }, none) := by
  intro k
  induction k with
  | zero => intro s _; simp [Device.noteLoop]
  | succ k ih =>
    intro s h
    simp only [Device.noteLoop, Device.beep, sendEvent, sleep_idx, sleep_trace] at h ⊢
    cases h1 : dev s.idx with
    | some e => simp [andThen, h1] at h
    | none =>
      simp only [andThen, h1] at h ⊢
      cases h2 : dev (s.idx + 1) with
      | some e => simp [andThen, h2] at h
      | none =>
        simp only [andThen, h2] at h ⊢
        rw [ih _ h]
        simp only [St.mk.injEq, Prod.mk.injEq, and_true]
        constructor
        · omega
        · simp [List.replicate_succ, loopBodyT, cycleT, List.append_assoc]

theorem note_succ (dev : Dev) (n : Note) (s : St)
    (h : (Device.note dev n s).2 = none) :
    Device.note dev n s
      = ({ idx := s.idx + 2 * n.repeats, trace := s.trace ++ noteTrace n }, none) := by
  rcases hr : n.repeats with _ | k
  · simp [Device.note, hr, noteTrace, Device.noteLoop, andThen]
  · simp only [Device.note, hr, Nat.succ_sub_one, if_pos (Nat.succ_pos k),
      Device.beep, sendEvent, sleep_idx, sleep_trace] at h ⊢
    cases h1 : dev s.idx with
    | some e => simp [andThen, h1] at h
    | none =>
      simp only [andThen, h1] at h ⊢
      cases h2 : dev (s.idx + 1) with
      | some e => simp [andThen, h2] at h
      | none =>
        simp only [andThen, h2] at h ⊢
        rw [noteLoop_succ dev n k _ h]
        simp only [St.mk.injEq, Prod.mk.injEq, and_true]
        constructor
        · omega
        · simp [noteTrace, hr, cycleT, List.append_assoc]

theorem play_succ (dev : Dev) : ∀ (m : List Note) (s : St),
    (Device.play dev m s).2 = none →
    Device.play dev m s
      = ({ idx := s.idx + 2 * sumRepeats m, trace := s.trace ++ melodyTrace m }, none) := by
  intro m
  induction m with
  | nil => intro s _; simp [Device.play, sumRepeats, melodyTrace]
  | cons n rest ih =>
    intro s h
    have hplay : Device.play dev (n :: rest) s
        = andThen (Device.note dev n s) fun s1 => Device.play dev rest s1 := rfl
    rw [hplay] at h ⊢
    rcases hN : Device.note dev n s with ⟨s1, o⟩
    rw [hN] at h
    cases o with
    | some e => simp [andThen] at h
    | none =>
      simp only [andThen] at h ⊢
      have hn2 : (Device.note dev n s).2 = none := by rw [hN]
      have hs1 : s1 = { idx := s.idx + 2 * n.repeats, trace := s.trace ++ noteTrace n } := by
        have := (note_succ dev n s hn2).symm.trans hN
        exact (Prod.mk.injEq _ _ _ _ ▸ this).1.symm
      subst hs1
      rw [ih _ h]
      simp only [St.mk.injEq, Prod.mk.injEq, and_true]
      constructor
      · simp [sumRepeats]; omega
      · simp [melodyTrace, List.append_assoc]

/-! ### The three copies of the sequencing code agree -/

theorem pcspkr_beep_eq (dev : Dev) (hertz : Nat) (s : St) :
    Pcspkr.beep dev hertz s = Device.beep dev hertz s := rfl

theorem pcspkr_noteLoop_eq (dev : Dev) (n : Note) : ∀ (k : Nat) (s : St),
    Pcspkr.noteLoop dev n k s = Device.noteLoop dev n k s := by
  intro k
  induction k with
  | zero => intro s; rfl
  | succ k ih =>
    intro s
    simp only [Pcspkr.noteLoop, Device.noteLoop, pcspkr_beep_eq, ih]

theorem pcspkr_note_eq (dev : Dev) (n : Note) (s : St) :
    Pcspkr.note dev n s = Device.note dev n s := by
  simp only [Pcspkr.note, Device.note, pcspkr_beep_eq, pcspkr_noteLoop_eq]

theorem pcspkr_playLoop_eq (dev : Dev) : ∀ (m : List Note) (s : St),
    Pcspkr.playLoop dev m s = Device.play dev m s := by
  intro m
  induction m with
  | nil => intro s; rfl
  | cons n rest ih =>
    intro s
    simp only [Pcspkr.playLoop, Device.play, pcspkr_note_eq, ih]

theorem pcspkr_play_eq (dev : Dev) (m : Melody) (s : St) :
    Pcspkr.play dev m s = Device.play dev m.as_ref s := by
  simp only [Pcspkr.play, pcspkr_playLoop_eq]

theorem libBeep_openOk (dev : Dev) (hertz : Nat) (s : St) :
    libBeep openOk dev hertz s = Device.beep dev hertz s := rfl

theorem lib_noteLoop_openOk (dev : Dev) (n : Note) : ∀ (k : Nat) (s : St),
    MelodyLib.noteLoop openOk dev n k s = Device.noteLoop dev n k s := by
  intro k
  induction k with
  | zero => intro s; rfl
  | succ k ih =>
    intro s
    simp only [MelodyLib.noteLoop, Device.noteLoop, libBeep_openOk, ih]

theorem lib_noteBody_openOk (dev : Dev) (n : Note) (s : St) :
    MelodyLib.noteBody openOk dev n s = Device.note dev n s := by
  simp only [MelodyLib.noteBody, Device.note, libBeep_openOk, lib_noteLoop_openOk]

theorem lib_playLoop_openOk (dev : Dev) : ∀ (m : List Note) (s : St),
    MelodyLib.playLoop openOk dev m s = Device.play dev m s := by
  intro m
  induction m with
  | nil => intro s; rfl
  | cons n rest ih =>
    intro s
    simp only [MelodyLib.playLoop, Device.play, lib_noteBody_openOk, ih]

theorem lib_play_openOk (dev : Dev) (m : MelodyLib) (s : St) :
    MelodyLib.play openOk dev m s = Device.play dev m.notes s := by
  simp only [MelodyLib.play, lib_playLoop_openOk]

/-! ### Success characterization for the monolithic lib.rs code, with an
arbitrary open oracle -/

theorem libBeep_succ (oOrc : OpenOrc) (dev : Dev) (hertz : Nat) (s : St)
    (hs : (libBeep oOrc dev hertz s).2 = none) :
    libBeep oOrc dev hertz s
      = ({ idx := s.idx + 1, trace := s.trace ++ [Act.write (toneEvent hertz)] }, none) := by
  simp only [libBeep, sendEvent] at hs ⊢
  cases ho : oOrc s.idx with
  | some e => simp [andThen, ho] at hs
  | none =>
    simp only [andThen, ho] at hs ⊢
    simp only [hs]

theorem lib_noteLoop_succ (oOrc : OpenOrc) (dev : Dev) (n : Note) : ∀ (k : Nat) (s : St),
    (MelodyLib.noteLoop oOrc dev n k s).2 = none →
    MelodyLib.noteLoop oOrc dev n k s
      = ({ idx := s.idx + 2 * k,
           trace := s.trace ++ List.flatten (List.replicate k (loopBodyT n)) }, none) := by
  intro k
  induction k with
  | zero => intro s _; simp [MelodyLib.noteLoop]
  | succ k ih =>
    intro s h
    have hu : MelodyLib.noteLoop oOrc dev n (k + 1) s
        = andThen (libBeep oOrc dev n.frequency (sleep n.delay s)) fun s1 =>
          andThen (libBeep oOrc dev 0 (sleep n.length s1)) fun s2 =>
          MelodyLib.noteLoop oOrc dev n k s2 := rfl
    rw [hu] at h ⊢
    rcases hB1 : libBeep oOrc dev n.frequency (sleep n.delay s) with ⟨s1, o1⟩
    rw [hB1] at h
    cases o1 with
    | some e => simp [andThen] at h
    | none =>
      rw [libBeep_succ oOrc dev n.frequency (sleep n.delay s) (by rw [hB1])] at hB1
      injection hB1 with h1 _
      subst h1
      simp only [andThen] at h ⊢
      rcases hB2 : libBeep oOrc dev 0 (sleep n.length _) with ⟨s2, o2⟩
      rw [hB2] at h
      cases o2 with
      | some e => simp [andThen] at h
      | none =>
        rw [libBeep_succ oOrc dev 0 _ (by rw [hB2])] at hB2
        injection hB2 with h2 _
        subst h2
        simp only [andThen] at h ⊢
        rw [ih _ h]
        simp only [St.mk.injEq, Prod.mk.injEq, and_true, sleep_idx, sleep_trace]
        constructor
        · omega
        · simp [List.replicate_succ, loopBodyT, cycleT, List.append_assoc]

theorem andThen_some2 (p : St × Option Err) (k : St → St × Option Err) (e : Err)
    (h : p.2 = some e) : andThen p k = (p.1, some e) := by
  rcases p with ⟨s, o⟩
  cases o with
  | none => simp at h
  | some e2 =>
    simp only [Option.some.injEq] at h
    subst h
    rfl

theorem andThen_congr (p : St × Option Err) (s1 : St) (k : St → St × Option Err)
    (h : p = (s1, none)) : andThen p k = k s1 := by
  rw [h]
  rfl

theorem lib_noteBody_succ (oOrc : OpenOrc) (dev : Dev) (n : Note) (s : St)
    (h : (MelodyLib.noteBody oOrc dev n s).2 = none) :
    MelodyLib.noteBody oOrc dev n s
      = ({ idx := s.idx + 2 * n.repeats, trace := s.trace ++ noteTrace n }, none) := by
  rcases hr : n.repeats with _ | k
  · simp [MelodyLib.noteBody, hr, noteTrace, MelodyLib.noteLoop, andThen]
  · have hu : MelodyLib.noteBody oOrc dev n s
        = andThen
            (andThen (libBeep oOrc dev n.frequency s) fun s1 =>
              libBeep oOrc dev 0 (sleep n.length s1))
            fun s2 => MelodyLib.noteLoop oOrc dev n (n.repeats - 1) s2 := by
      simp only [MelodyLib.noteBody, hr, if_pos (Nat.succ_pos k)]
    rw [hu] at h ⊢
    cases hB1 : (libBeep oOrc dev n.frequency s).2 with
    | some e =>
      rw [andThen_assoc, andThen_some2 _ _ e hB1] at h
      simp [andThen] at h
    | none =>
      have hE1 := libBeep_succ oOrc dev n.frequency s hB1
      rw [andThen_assoc, andThen_congr _ _ _ hE1] at h ⊢
      cases hB2 : (libBeep oOrc dev 0
          (sleep n.length
            { idx := s.idx + 1,
              trace := s.trace ++ [Act.write (toneEvent n.frequency)] })).2 with
      | some e =>
        rw [andThen_some2 _ _ e hB2] at h
        simp at h
      | none =>
        have hE2 := libBeep_succ oOrc dev 0 _ hB2
        rw [andThen_congr _ _ _ hE2] at h ⊢
        rw [lib_noteLoop_succ oOrc dev n _ _ h]
        simp only [St.mk.injEq, Prod.mk.injEq, and_true, sleep_idx, sleep_trace, hr,
          Nat.succ_sub_one]
        constructor
        · omega
        · simp [noteTrace, hr, cycleT, List.append_assoc]

theorem lib_playLoop_succ (oOrc : OpenOrc) (dev : Dev) : ∀ (m : List Note) (s : St),
    (MelodyLib.playLoop oOrc dev m s).2 = none →
    MelodyLib.playLoop oOrc dev m s
      = ({ idx := s.idx + 2 * sumRepeats m, trace := s.trace ++ melodyTrace m }, none) := by
  intro m
  induction m with
  | nil => intro s _; simp [MelodyLib.playLoop, sumRepeats, melodyTrace]
  | cons n rest ih =>
    intro s h
    have hu : MelodyLib.playLoop oOrc dev (n :: rest) s
        = andThen (MelodyLib.noteBody oOrc dev n s) fun s1 =>
          MelodyLib.playLoop oOrc dev rest s1 := rfl
    rw [hu] at h ⊢
    cases hN2 : (MelodyLib.noteBody oOrc dev n s).2 with
    | some e =>
      rw [andThen_some2 _ _ e hN2] at h
      simp at h
    | none =>
      have hE := lib_noteBody_succ oOrc dev n s hN2
      rw [andThen_congr _ _ _ hE] at h ⊢
      rw [ih _ h]
      simp only [St.mk.injEq, Prod.mk.injEq, and_true]
      constructor
      · simp [sumRepeats]; omega
      · simp [melodyTrace, List.append_assoc]

/-! ### On failure, the last recorded action is the failing write -/

/-- The run's result either succeeded, or its trace ends in a (failing)
device write — no wait and no silencing write follows the failure. -/
def lastIsWrite (r : St × Option Err) : Prop :=
  ∀ e, r.2 = some e → ∃ x, (r.1.trace).getLast? = some (Act.write x)

theorem lastIsWrite_beep (dev : Dev) (hertz : Nat) (s : St) :
    lastIsWrite (Device.beep dev hertz s) := by
  intro e _
  exact ⟨toneEvent hertz, by simp [Device.beep, sendEvent, List.getLast?_concat]⟩

theorem lastIsWrite_andThen (p : St × Option Err) (k : St → St × Option Err)
    (hp : lastIsWrite p) (hk : ∀ s, lastIsWrite (k s)) :
    lastIsWrite (andThen p k) := by
  rcases p with ⟨s, o⟩
  cases o with
  | none =>
    intro e he
    exact hk s e (by simpa [andThen] using he)
  | some e2 =>
    intro e he
    have h2 : e2 = e := by simpa [andThen] using he
    subst h2
    exact hp e2 rfl

theorem lastIsWrite_noteLoop (dev : Dev) (n : Note) : ∀ (k : Nat) (s : St),
    lastIsWrite (Device.noteLoop dev n k s) := by
  intro k
  induction k with
  | zero => intro s e he; simp [Device.noteLoop] at he
  | succ k ih =>
    intro s
    refine lastIsWrite_andThen _ _ (lastIsWrite_beep dev n.frequency _) fun s1 => ?_
    exact lastIsWrite_andThen _ _ (lastIsWrite_beep dev 0 _) fun s2 => ih s2

theorem lastIsWrite_note (dev : Dev) (n : Note) (s : St) :
    lastIsWrite (Device.note dev n s) := by
  refine lastIsWrite_andThen _ _ ?_ fun s2 => lastIsWrite_noteLoop dev n _ s2
  by_cases hr : n.repeats > 0
  · rw [if_pos hr]
    exact lastIsWrite_andThen _ _ (lastIsWrite_beep dev n.frequency s) fun s1 =>
      lastIsWrite_beep dev 0 _
  · rw [if_neg hr]
    intro e he
    simp at he

theorem lastIsWrite_play (dev : Dev) : ∀ (m : List Note) (s : St),
    lastIsWrite (Device.play dev m s) := by
  intro m
  induction m with
  | nil => intro s e he; simp [Device.play] at he
  | cons n rest ih =>
    intro s
    exact lastIsWrite_andThen _ _ (lastIsWrite_note dev n s) fun s1 => ih s1

/-- `Device::play` over a concatenation is the sequential composition. -/
theorem play_append (dev : Dev) : ∀ (a b : List Note) (s : St),
    Device.play dev (a ++ b) s
      = andThen (Device.play dev a s) fun s1 => Device.play dev b s1 := by
  intro a
  induction a with
  | nil => intro b s; rfl
  | cons n rest ih =>
    intro b s
    show (andThen (Device.note dev n s) fun s1 => Device.play dev (rest ++ b) s1)
      = andThen (andThen (Device.note dev n s) fun s1 => Device.play dev rest s1)
          fun s1 => Device.play dev b s1
    rw [andThen_assoc]
    simp only [ih]

/-! ### Writes contained in the nominal traces -/

theorem writesOf_append (a b : List Act) :
    writesOf (a ++ b) = writesOf a ++ writesOf b := by
  simp [writesOf, List.filterMap_append]

theorem writesOf_cycleT (n : Note) :
    writesOf (cycleT n) = [toneEvent n.frequency, toneEvent 0] := rfl

theorem writesOf_loopFlat (n : Note) : ∀ (k : Nat),
    writesOf (List.flatten (List.replicate k (loopBodyT n)))
      = List.flatten (List.replicate k [toneEvent n.frequency, toneEvent 0]) := by
  intro k
  induction k with
  | zero => rfl
  | succ k ih =>
    simp only [List.replicate_succ, List.flatten_cons, writesOf_append, ih]
    rfl

theorem writesOf_noteTrace (n : Note) :
    writesOf (noteTrace n)
      = List.flatten (List.replicate n.repeats [toneEvent n.frequency, toneEvent 0]) := by
  rcases hr : n.repeats with _ | k
  · simp [noteTrace, hr, writesOf]
  · simp only [noteTrace, hr, writesOf_append, writesOf_cycleT, writesOf_loopFlat,
      List.replicate_succ, List.flatten_cons]

theorem writesOf_noteTrace_length (n : Note) :
    (writesOf (noteTrace n)).length = 2 * n.repeats := by
  rw [writesOf_noteTrace]
  induction n.repeats with
  | zero => rfl
  | succ k ih =>
    simp only [List.replicate_succ, List.flatten_cons, List.length_append, ih]
    simp
    omega

/-! ### Every nonempty write sequence of a successful run ends in silence -/

/-- A write sequence is either empty or ends with the tone-off event. -/
def endsSilent (l : List InputEvent) : Prop :=
  l = [] ∨ l.getLast? = some (toneEvent 0)

theorem endsSilent_append (a b : List InputEvent)
    (ha : endsSilent a) (hb : endsSilent b) : endsSilent (a ++ b) := by
  rcases hb with hb | hb
  · rw [hb, List.append_nil]
    exact ha
  · right
    have hne : b ≠ [] := by
      intro h0
      rw [h0] at hb
      simp at hb
    rw [List.getLast?_append_of_ne_nil a hne]
    exact hb

theorem endsSilent_pairFlat (f : Nat) : ∀ (k : Nat),
    endsSilent (List.flatten (List.replicate k [toneEvent f, toneEvent 0])) := by
  intro k
  induction k with
  | zero => left; rfl
  | succ k ih =>
    rw [List.replicate_succ, List.flatten_cons]
    exact endsSilent_append _ _ (Or.inr rfl) ih

theorem endsSilent_noteTrace (n : Note) : endsSilent (writesOf (noteTrace n)) := by
  rw [writesOf_noteTrace]
  exact endsSilent_pairFlat n.frequency n.repeats

theorem endsSilent_melodyTrace : ∀ (m : List Note),
    endsSilent (writesOf (melodyTrace m)) := by
  intro m
  induction m with
  | nil => left; rfl
  | cons n rest ih =>
    have hm : melodyTrace (n :: rest) = noteTrace n ++ melodyTrace rest := by
      simp [melodyTrace]
    rw [hm, writesOf_append]
    exact endsSilent_append _ _ (endsSilent_noteTrace n) ih

theorem endsSilent_lastWrite (t : List Act) (he : endsSilent (writesOf t))
    (hne : writesOf t ≠ []) : lastWrite t = some (toneEvent 0) := by
  rcases he with h | h
  · exact absurd h hne
  · exact h

/-! ### The claims -/

/-- Claim C1: playing a note with `repeats = R ≥ 1` on a reliable device
succeeds and produces exactly R cycles of tone-on at the note's frequency and
tone-off (2R writes in total), each cycle's two writes separated by a wait of
the note's length, with exactly R - 1 delay waits, each placed strictly
between two consecutive cycles — never before the first nor after the last.
`Device::note`, `Pcspkr::note` and the per-note body of the monolithic
lib.rs `Melody::play` (under succeeding opens) all behave so. -/
theorem claim_C1 (n : Note) (s : St) (h : 1 ≤ n.repeats) :
    Device.note devOk n s
      = ({ idx := s.idx + 2 * n.repeats,
           trace := s.trace ++
             (cycleT n ++
               List.flatten
                 (List.replicate (n.repeats - 1) (Act.wait n.delay :: cycleT n))) }, none)
    ∧ Pcspkr.note devOk n s
      = ({ idx := s.idx + 2 * n.repeats,
           trace := s.trace ++
             (cycleT n ++
               List.flatten
                 (List.replicate (n.repeats - 1) (Act.wait n.delay :: cycleT n))) }, none)
    ∧ MelodyLib.noteBody openOk devOk n s
      = ({ idx := s.idx + 2 * n.repeats,
           trace := s.trace ++
             (cycleT n ++
               List.flatten
                 (List.replicate (n.repeats - 1) (Act.wait n.delay :: cycleT n))) }, none)
    ∧ (writesOf (noteTrace n)).length = 2 * n.repeats := by
  have hnt : noteTrace n
      = cycleT n ++
        List.flatten (List.replicate (n.repeats - 1) (Act.wait n.delay :: cycleT n)) := by
    rcases hr : n.repeats with _ | k
    · omega
    · simp [noteTrace, hr, loopBodyT]
  refine ⟨?_, ?_, ?_, writesOf_noteTrace_length n⟩
  · rw [devOk_note, hnt]
  · rw [pcspkr_note_eq, devOk_note, hnt]
  · rw [lib_noteBody_openOk, devOk_note, hnt]

/-- Witness for C1 at a concrete note with two repeats. -/
theorem claim_C1_witness :
    Device.note devOk (Note.new 440 5 2 7) st0
      = ({ idx := 4,
           trace := [Act.write (toneEvent 440), Act.wait 5, Act.write (toneEvent 0),
                     Act.wait 7, Act.write (toneEvent 440), Act.wait 5,
                     Act.write (toneEvent 0)] }, none) := by
  have h := (claim_C1 (Note.new 440 5 2 7) st0 (by decide)).1
  exact h.trans (by decide)

/-- Claim C2: if note k of a melody fails with an I/O error, `play` returns
exactly that error, the state it stops in is the one the failing note run
halted in (so the remaining repeats of note k are aborted and no write of any
later note ever occurs), and the last recorded action is the failing write
itself — in particular, no silencing write follows it.  `Pcspkr::play` and
the monolithic lib.rs `Melody::play` (under succeeding opens) agree. -/
theorem claim_C2 (dev : Dev) (pre : List Note) (n : Note) (rest : List Note)
    (s : St) (e : Err)
    (hp : (Device.play dev pre s).2 = none)
    (hn : (Device.note dev n (Device.play dev pre s).1).2 = some e) :
    Device.play dev (pre ++ n :: rest) s
      = ((Device.note dev n (Device.play dev pre s).1).1, some e)
    ∧ (∃ x, ((Device.note dev n (Device.play dev pre s).1).1.trace).getLast?
        = some (Act.write x))
    ∧ Pcspkr.play dev (Melody.new (pre ++ n :: rest)) s
      = ((Device.note dev n (Device.play dev pre s).1).1, some e)
    ∧ MelodyLib.play openOk dev (MelodyLib.mk (pre ++ n :: rest)) s
      = ((Device.note dev n (Device.play dev pre s).1).1, some e) := by
  have hps : Device.play dev pre s = ((Device.play dev pre s).1, none) := by
    rw [← hp]
  have hmain : Device.play dev (pre ++ n :: rest) s
      = ((Device.note dev n (Device.play dev pre s).1).1, some e) := by
    rw [play_append, andThen_congr _ _ _ hps]
    show (andThen (Device.note dev n (Device.play dev pre s).1)
        fun s1 => Device.play dev rest s1) = _
    rw [andThen_some2 _ _ e hn]
  refine ⟨hmain, lastIsWrite_note dev n _ e hn, ?_, ?_⟩
  · rw [pcspkr_play_eq]
    exact hmain
  · rw [lib_play_openOk]
    exact hmain

/-- Witness for C2: the third write attempt (index 2) fails with error 7,
inside the second note's first cycle. -/
theorem claim_C2_witness :
    Device.play (fun i => if i = 2 then some 7 else none)
        ([Note.new 100 5 1 6] ++ Note.new 200 5 2 6 :: [Note.new 300 5 1 6]) st0
      = ((Device.note (fun i => if i = 2 then some 7 else none) (Note.new 200 5 2 6)
            (Device.play (fun i => if i = 2 then some 7 else none)
              [Note.new 100 5 1 6] st0).1).1, some 7) :=
  (claim_C2 (fun i => if i = 2 then some 7 else none) [Note.new 100 5 1 6]
    (Note.new 200 5 2 6) [Note.new 300 5 1 6] st0 7 (by decide) (by decide)).1

/-- Claim C3: a note with `repeats = 0` performs no device write and no wait
and returns success — on any device, for both implementations. -/
theorem claim_C3 (dev : Dev) (n : Note) (s : St) (h : n.repeats = 0) :
    Device.note dev n s = (s, none) ∧ Pcspkr.note dev n s = (s, none) := by
  constructor
  · simp [Device.note, h, Device.noteLoop, andThen]
  · simp [Pcspkr.note, h, Pcspkr.noteLoop, andThen]

/-- Witness for C3 at a concrete zero-repeat note. -/
theorem claim_C3_witness :
    (Note.new 440 5 0 7).repeats = 0
    ∧ Device.note devOk (Note.new 440 5 0 7) st0 = (st0, none)
    ∧ Pcspkr.note devOk (Note.new 440 5 0 7) st0 = (st0, none) :=
  ⟨rfl, claim_C3 devOk (Note.new 440 5 0 7) st0 rfl⟩

/-- Claim C4: playing a melody on a reliable device plays its notes in
sequence order — the resulting trace is the concatenation of the per-note
traces in melody order — and the empty melody performs zero writes and
returns success on any device.  Both `Device::play` and `Pcspkr::play`
behave so. -/
theorem claim_C4 (dev : Dev) (m : List Note) (s : St) :
    Device.play devOk m s
      = ({ idx := s.idx + 2 * sumRepeats m, trace := s.trace ++ melodyTrace m }, none)
    ∧ melodyTrace m = List.flatten (m.map noteTrace)
    ∧ Pcspkr.play devOk (Melody.new m) s
      = ({ idx := s.idx + 2 * sumRepeats m, trace := s.trace ++ melodyTrace m }, none)
    ∧ Device.play dev [] s = (s, none)
    ∧ Pcspkr.play dev (Melody.new []) s = (s, none) := by
  refine ⟨devOk_play m s, rfl, ?_, rfl, rfl⟩
  rw [pcspkr_play_eq]
  exact devOk_play m s

/-- Claim C5: a `beep` call writes exactly one event of kind sound, subtype
tone, whose payload is the frequency; with `hertz = 0` the payload is `0`,
regardless of the prior state.  This holds for `Device::beep`,
`Pcspkr::beep` and (when the open succeeds) the free function `beep` of
lib.rs. -/
theorem claim_C5 (dev : Dev) (oOrc : OpenOrc) (hertz : Nat) (s : St)
    (_hfits : hertz < 65536) (hopen : oOrc s.idx = none) :
    Device.beep dev hertz s
      = ({ idx := s.idx + 1, trace := s.trace ++ [Act.write (toneEvent hertz)] }, dev s.idx)
    ∧ Pcspkr.beep dev hertz s
      = ({ idx := s.idx + 1, trace := s.trace ++ [Act.write (toneEvent hertz)] }, dev s.idx)
    ∧ libBeep oOrc dev hertz s
      = ({ idx := s.idx + 1, trace := s.trace ++ [Act.write (toneEvent hertz)] }, dev s.idx)
    ∧ toneEvent hertz = { etype := EV_SOUND, code := SND_TONE, value := Int.ofNat hertz }
    ∧ Device.beep dev 0 s
      = ({ idx := s.idx + 1,
           trace := s.trace ++ [Act.write { etype := EV_SOUND, code := SND_TONE, value := 0 }] },
         dev s.idx) := by
  refine ⟨rfl, rfl, ?_, rfl, rfl⟩
  simp [libBeep, andThen, hopen, sendEvent]

/-- Witness for C5 at frequency 440 and at 0. -/
theorem claim_C5_witness :
    Device.beep devOk 440 st0
      = ({ idx := 1, trace := [Act.write { etype := 18, code := 2, value := 440 }] }, none)
    ∧ libBeep openOk devOk 0 st0
      = ({ idx := 1, trace := [Act.write { etype := 18, code := 2, value := 0 }] }, none) := by
  have h := claim_C5 devOk openOk 440 st0 (by decide) rfl
  have h0 := claim_C5 devOk openOk 0 st0 (by decide) rfl
  exact ⟨h.1.trans (by decide), h0.2.2.1.trans (by decide)⟩

/-- Claim C6: the `(frequency, length)` shorthand conversions produce the
note built explicitly with `repeats = 1` and the default delay. -/
theorem claim_C6 (f lms : Nat) (d : Duration) :
    Note.from_pair_ms f lms = Note.new f (Duration.fromMillis lms) 1 DEFAULT_DELAY
    ∧ Note.from_pair_dur f d = Note.new f d 1 DEFAULT_DELAY :=
  ⟨rfl, rfl⟩

/-- Claim C7: the default constants are 440 Hz, 200 ms, 1 repeat, 100 ms
delay; `Note::default` is built from exactly these and `Melody::default` is
the single-note melody of the default note. -/
theorem claim_C7 :
    DEFAULT_FREQ = 440
    ∧ DEFAULT_LEN = Duration.fromMillis 200
    ∧ DEFAULT_REPEATS = 1
    ∧ DEFAULT_DELAY = Duration.fromMillis 100
    ∧ Note.default = Note.new 440 (Duration.fromMillis 200) 1 (Duration.fromMillis 100)
    ∧ Melody.default = Melody.new [Note.default]
    ∧ Melody.default.as_ref = [Note.default] :=
  ⟨rfl, rfl, rfl, rfl, rfl, rfl, rfl⟩

/-- Claim C8: wrapping a sequence of notes in a `Melody` and reading it back
is the identity: order and duplicates preserved, nothing validated, nothing
changed; the `From` conversions are identity wraps. -/
theorem claim_C8 (ns : List Note) :
    (Melody.new ns).as_ref = ns
    ∧ Melody.from_vec ns = Melody.new ns
    ∧ Melody.from_slice ns = Melody.new ns
    ∧ (Melody.from_vec ns).as_ref = ns
    ∧ (Melody.from_slice ns).as_ref = ns :=
  ⟨rfl, rfl, rfl, rfl, rfl⟩

/-- Claim C9: the three copies of the sequencing algorithm — `Device::note`/
`Device::play`, `Pcspkr::note`/`Pcspkr::play`, and the inlined loop of the
monolithic lib.rs `Melody::play` (whose per-write device open is taken to
succeed) — produce identical runs: the very same writes, waits, and result,
on every device, note, melody and state. -/
theorem claim_C9 (dev : Dev) (n : Note) (m : List Note) (s : St) :
    Pcspkr.note dev n s = Device.note dev n s
    ∧ Pcspkr.play dev (Melody.new m) s = Device.play dev m s
    ∧ MelodyLib.noteBody openOk dev n s = Device.note dev n s
    ∧ MelodyLib.play openOk dev (MelodyLib.mk m) s = Device.play dev m s :=
  ⟨pcspkr_note_eq dev n s, pcspkr_play_eq dev (Melody.new m) s,
    lib_noteBody_openOk dev n s, lib_play_openOk dev (MelodyLib.mk m) s⟩

/-- Claim C10: whenever a play operation returns success and issued at least
one device write, the last write it issued carries payload 0 — every
successful playback leaves the speaker silenced.  This holds for all five
play operations, on any device and any open oracle. -/
theorem claim_C10 (dev : Dev) (oOrc : OpenOrc) (n : Note) (m : List Note) :
    ((Device.note dev n st0).2 = none →
      writesOf (Device.note dev n st0).1.trace ≠ [] →
      lastWrite (Device.note dev n st0).1.trace = some (toneEvent 0))
    ∧ ((Device.play dev m st0).2 = none →
      writesOf (Device.play dev m st0).1.trace ≠ [] →
      lastWrite (Device.play dev m st0).1.trace = some (toneEvent 0))
    ∧ ((Pcspkr.note dev n st0).2 = none →
      writesOf (Pcspkr.note dev n st0).1.trace ≠ [] →
      lastWrite (Pcspkr.note dev n st0).1.trace = some (toneEvent 0))
    ∧ ((Pcspkr.play dev (Melody.new m) st0).2 = none →
      writesOf (Pcspkr.play dev (Melody.new m) st0).1.trace ≠ [] →
      lastWrite (Pcspkr.play dev (Melody.new m) st0).1.trace = some (toneEvent 0))
    ∧ ((MelodyLib.play oOrc dev (MelodyLib.mk m) st0).2 = none →
      writesOf (MelodyLib.play oOrc dev (MelodyLib.mk m) st0).1.trace ≠ [] →
      lastWrite (MelodyLib.play oOrc dev (MelodyLib.mk m) st0).1.trace
        = some (toneEvent 0)) := by
  refine ⟨?_, ?_, ?_, ?_, ?_⟩
  · intro hs hne
    have ht : (Device.note dev n st0).1.trace = noteTrace n := by
      rw [note_succ dev n st0 hs]
      simp [st0]
    rw [ht] at hne ⊢
    exact endsSilent_lastWrite _ (endsSilent_noteTrace n) hne
  · intro hs hne
    have ht : (Device.play dev m st0).1.trace = melodyTrace m := by
      rw [play_succ dev m st0 hs]
      simp [st0]
    rw [ht] at hne ⊢
    exact endsSilent_lastWrite _ (endsSilent_melodyTrace m) hne
  · intro hs hne
    rw [pcspkr_note_eq] at hs hne ⊢
    have ht : (Device.note dev n st0).1.trace = noteTrace n := by
      rw [note_succ dev n st0 hs]
      simp [st0]
    rw [ht] at hne ⊢
    exact endsSilent_lastWrite _ (endsSilent_noteTrace n) hne
  · intro hs hne
    rw [pcspkr_play_eq] at hs hne ⊢
    have ht : (Device.play dev (Melody.new m).as_ref st0).1.trace = melodyTrace m := by
      rw [play_succ dev (Melody.new m).as_ref st0 hs]
      simp [st0, Melody.new, Melody.as_ref]
    rw [ht] at hne ⊢
    exact endsSilent_lastWrite _ (endsSilent_melodyTrace m) hne
  · intro hs hne
    have hs2 : (MelodyLib.playLoop oOrc dev m st0).2 = none := hs
    have ht : (MelodyLib.play oOrc dev (MelodyLib.mk m) st0).1.trace = melodyTrace m := by
      show (MelodyLib.playLoop oOrc dev m st0).1.trace = melodyTrace m
      rw [lib_playLoop_succ oOrc dev m st0 hs2]
      simp [st0]
    rw [ht] at hne ⊢
    exact endsSilent_lastWrite _ (endsSilent_melodyTrace m) hne

/-- Witness for C10: a successful one-repeat note and the singleton melody
containing it, on all five operations. -/
theorem claim_C10_witness :
    lastWrite (Device.note devOk (Note.new 440 5 1 6) st0).1.trace = some (toneEvent 0)
    ∧ lastWrite (Device.play devOk [Note.new 440 5 1 6] st0).1.trace = some (toneEvent 0)
    ∧ lastWrite (Pcspkr.note devOk (Note.new 440 5 1 6) st0).1.trace = some (toneEvent 0)
    ∧ lastWrite (Pcspkr.play devOk (Melody.new [Note.new 440 5 1 6]) st0).1.trace
        = some (toneEvent 0)
    ∧ lastWrite (MelodyLib.play openOk devOk (MelodyLib.mk [Note.new 440 5 1 6]) st0).1.trace
        = some (toneEvent 0) := by
  have h := claim_C10 devOk openOk (Note.new 440 5 1 6) [Note.new 440 5 1 6]
  exact ⟨h.1 (by decide) (by decide), h.2.1 (by decide) (by decide),
    h.2.2.1 (by decide) (by decide), h.2.2.2.1 (by decide) (by decide),
    h.2.2.2.2 (by decide) (by decide)⟩
